import Mathlib

/-!
Verification of the in-memory incident store of the SOAR incident mock API
(`src/app.py`): data model, identifier allocator, filter-then-paginate query,
and the CRUD state transitions, embedded shallowly as pure Lean functions.
Python integers are `Int`; Python `//` is floor division (`Int.fdiv`);
Python list slicing `l[a:b]` is `pySlice`; the `ZeroDivisionError` raised by
`get_incidents` when the capped `per_page` is zero is an `Option.none` result.
-/

namespace Soar

/-- An incident record: `id`, `title`, `status`, `severity`
(mirrors the `Incident` pydantic model / the dicts in `incidents`). -/
structure Incident where
  id : Int
  title : String
  status : String
  severity : String
deriving Repr, DecidableEq

/-- The seed dataset `incidents` in `app.py` (3 records, ids 1..3). -/
def seedIncidents : List Incident :=
  [⟨1, "Phishing Email Campaign Detected", "open", "high"⟩,
   ⟨2, "Malware Detected on Endpoint", "closed", "medium"⟩,
   ⟨3, "Suspicious Login from Foreign IP", "under investigation", "low"⟩]

/-- The mutable globals of `app.py`: the incident list and the id counter
(`id_counter["value"]`), packaged as an explicit state. -/
structure StoreState where
  incidents : List Incident
  counter : Int
deriving Repr, DecidableEq

/-- Initial process state: seed records, `id_counter = {"value": 3}`. -/
def seedState : StoreState := ⟨seedIncidents, 3⟩

/-- `get_next_id`: increments the counter and returns the new value. -/
def get_next_id (s : StoreState) : Int × StoreState :=
  (s.counter + 1, { s with counter := s.counter + 1 })

/-- One filtering pass of `get_incidents`: Python `if status:` keeps the list
unchanged when the parameter is `None` or the empty string (falsy), and
otherwise keeps the incidents whose field matches case-insensitively. -/
def applyFilter (key : Incident → String) (filt : Option String)
    (l : List Incident) : List Incident :=
  match filt with
  | none => l
  | some f => if f = "" then l else l.filter (fun i => (key i).toLower == f.toLower)

/-- The filtered sequence `filtered_incidents` computed by `get_incidents`:
the status filter applied first, then the severity filter. -/
def listFiltered (s : StoreState) (status severity : Option String) : List Incident :=
  applyFilter Incident.severity severity (applyFilter Incident.status status s.incidents)

/-- Python list slicing `l[start:stop]` (step 1): negative indices count from
the end, indices are clamped to `[0, len]`, and the result is the half-open
window. -/
def pySlice {α : Type} (l : List α) (start stop : Int) : List α :=
  let n : Int := l.length
  let s : Int := if start < 0 then max (n + start) 0 else min start n
  let e : Int := if stop < 0 then max (n + stop) 0 else min stop n
  (l.drop s.toNat).take (e - s).toNat

/-- The `PaginatedResponse` model returned by `get_incidents`. -/
structure PaginatedResponse where
  incidents : List Incident
  total : Int
  page : Int
  per_page : Int
  total_pages : Int
deriving Repr, DecidableEq

/-- `get_incidents` (GET /incidents): filter, cap `per_page` at 100, compute
`total_pages = (total + per_page - 1) // per_page` (floor division), slice
`[(page-1)*per_page, (page-1)*per_page + per_page)`. When the capped
`per_page` is zero the floor division raises `ZeroDivisionError`, modelled as
`none`. -/
def get_incidents (s : StoreState) (status severity : Option String)
    (page per_page : Int) : Option PaginatedResponse :=
  let filtered := listFiltered s status severity
  let total : Int := filtered.length
  let pp : Int := min per_page 100
  if pp = 0 then none
  else
    let total_pages : Int := Int.fdiv (total + pp - 1) pp
    let start : Int := (page - 1) * pp
    some ⟨pySlice filtered start (start + pp), total, page, pp, total_pages⟩

/-- `get_incident` (GET /incidents/{id}): linear scan, first id match;
`none` models the 404 `HTTPException`. -/
def get_incident (s : StoreState) (incident_id : Int) : Option Incident :=
  s.incidents.find? (fun i => i.id == incident_id)

/-- Pydantic validation of the `IncidentCreate` body: `title` and `severity`
are required (`Field(...)`) and their absence is a 422; `status` defaults to
`"open"`. Any string value passes, the empty string included. -/
def validateIncidentCreate (title status severity : Option String) :
    Option (String × String × String) :=
  match title, severity with
  | some t, some sv => some (t, status.getD "open", sv)
  | _, _ => none

/-- Pydantic validation of the `IncidentUpdate` body: `status` is required;
any string value passes, the empty string included. -/
def validateIncidentUpdate (status : Option String) : Option String := status

/-- `create_incident` body (store part, after validation): allocate an id via
`get_next_id`, build the record, append it to the collection. -/
def create_incident (s : StoreState) (title status severity : String) :
    Incident × StoreState :=
  let p := get_next_id s
  let inc : Incident := ⟨p.1, title, status, severity⟩
  (inc, { p.2 with incidents := p.2.incidents ++ [inc] })

/-- POST /incidents as a whole: pydantic validation, then `create_incident`;
`none` models the 422 response. -/
def post_incident (s : StoreState) (title status severity : Option String) :
    Option (Incident × StoreState) :=
  (validateIncidentCreate title status severity).map
    (fun v => create_incident s v.1 v.2.1 v.2.2)

/-- The loop of `update_incident`: scan for the first id match and replace its
`status` in place; returns the new list and the updated record (`none` when no
match, in which case the 404 is raised). -/
def updateList (l : List Incident) (incident_id : Int) (newStatus : String) :
    List Incident × Option Incident :=
  match l with
  | [] => ([], none)
  | i :: rest =>
    if i.id == incident_id then
      (({ i with status := newStatus }) :: rest, some { i with status := newStatus })
    else
      let p := updateList rest incident_id newStatus
      (i :: p.1, p.2)

/-- `update_incident` (PATCH /incidents/{id}), store part. -/
def update_incident (s : StoreState) (incident_id : Int) (newStatus : String) :
    StoreState × Option Incident :=
  let p := updateList s.incidents incident_id newStatus
  ({ s with incidents := p.1 }, p.2)

/-- PATCH /incidents/{id} as a whole: pydantic validation of the body, then
`update_incident`; `none` models the 422 response. -/
def patch_incident (s : StoreState) (incident_id : Int) (status : Option String) :
    Option (StoreState × Option Incident) :=
  (validateIncidentUpdate status).map (fun ns => update_incident s incident_id ns)

/-- The loop of `delete_incident`: find the first id match and `pop` it;
returns the new list and the removed record (`none` when no match). -/
def deleteList (l : List Incident) (incident_id : Int) :
    List Incident × Option Incident :=
  match l with
  | [] => ([], none)
  | i :: rest =>
    if i.id == incident_id then (rest, some i)
    else
      let p := deleteList rest incident_id
      (i :: p.1, p.2)

/-- `delete_incident` (DELETE /incidents/{id}), store part. -/
def delete_incident (s : StoreState) (incident_id : Int) :
    StoreState × Option Incident :=
  let p := deleteList s.incidents incident_id
  ({ s with incidents := p.1 }, p.2)

/-- The mutating operations, for reasoning about operation sequences. -/
inductive Op where
  | create (title status severity : String)
  | update (incident_id : Int) (newStatus : String)
  | del (incident_id : Int)
deriving Repr, DecidableEq

/-- One mutating step of the store. -/
def step (s : StoreState) (op : Op) : StoreState :=
  match op with
  | .create t st sv => (create_incident s t st sv).2
  | .update i st => (update_incident s i st).1
  | .del i => (delete_incident s i).1

/-- Run a sequence of mutating operations. -/
def run (s : StoreState) (ops : List Op) : StoreState := ops.foldl step s

/-- `n` successive calls of `get_next_id`: the list of returned ids and the
final state. -/
def allocRun : Nat → StoreState → List Int × StoreState
  | 0, s => ([], s)
  | n + 1, s =>
    let p := get_next_id s
    let q := allocRun n p.2
    (p.1 :: q.1, q.2)

example : (allocRun 3 seedState).1 = [4, 5, 6] := by decide

/-- Closed form of `allocRun`: the ids are `counter+1, ..., counter+n` and the
counter advances by `n`; the collection is untouched. -/
lemma allocRun_eq (n : Nat) (s : StoreState) :
    allocRun n s = ((List.range n).map (fun k : Nat => s.counter + 1 + (k : Int)),
                    ⟨s.incidents, s.counter + n⟩) := by
  induction n generalizing s with
  | zero =>
    refine congrArg₂ Prod.mk (by simp) ?_
    show s = ⟨s.incidents, s.counter + 0⟩
    rw [add_zero]
  | succ n ih =>
    simp only [allocRun, get_next_id, ih]
    rw [List.range_succ_eq_map]
    simp only [List.map_cons, List.map_map, Function.comp]
    refine congrArg₂ Prod.mk ?_ ?_
    · refine congrArg₂ List.cons (by push_cast; ring) ?_
      refine List.map_congr_left (fun k hk => ?_)
      simp only [Function.comp_apply]
      push_cast; ring
    · refine congrArg (StoreState.mk s.incidents) (by push_cast; ring)

/-- C3: started from the seed (counter 3), `n` allocator calls return exactly
the contiguous sequence `4, 5, ..., 3+n`; the first call returns 4, the
returned values are pairwise strictly increasing, and every returned value
exceeds the highest seed id 3. -/
theorem allocatorContiguous (n : Nat) :
    (allocRun n seedState).1 = (List.range n).map (fun k : Nat => (4 : Int) + (k : Int)) ∧
    (allocRun n seedState).2.counter = 3 + n ∧
    (allocRun n seedState).1.head? = (if n = 0 then none else some 4) ∧
    (allocRun n seedState).1.Pairwise (· < ·) ∧
    ∀ v ∈ (allocRun n seedState).1, 3 < v := by
  have hrun : allocRun n seedState =
      ((List.range n).map (fun k : Nat => (4 : Int) + (k : Int)),
        ⟨seedIncidents, 3 + n⟩) := by
    rw [allocRun_eq]
    refine congrArg₂ Prod.mk ?_ rfl
    refine List.map_congr_left (fun k hk => ?_)
    show (3 : Int) + 1 + (k : Int) = 4 + (k : Int)
    ring
  refine ⟨by rw [hrun], by rw [hrun], ?_, ?_, ?_⟩
  · rw [hrun]
    cases n with
    | zero => simp
    | succ m =>
      rw [List.range_succ_eq_map]
      simp
  · rw [hrun]
    rw [List.pairwise_map]
    refine (List.pairwise_lt_range n).imp ?_
    intro a b hab
    have hab2 : a < b := hab
    omega
  · rw [hrun]
    intro v hv
    obtain ⟨k, -, rfl⟩ := List.mem_map.mp hv
    omega

/-- C10: an empty-string filter is falsy in Python, so `list` with
`filter_status = ""` (or `filter_severity = ""`) behaves exactly like `list`
with that filter absent, for every state, page and per_page. -/
theorem emptyFilterIsAbsent (s : StoreState) (st sv : Option String)
    (page pp : Int) :
    get_incidents s (some "") sv page pp = get_incidents s none sv page pp ∧
    get_incidents s st (some "") page pp = get_incidents s st none page pp := by
  constructor <;> simp [get_incidents, listFiltered, applyFilter]

/-- C1 fails as stated: with `per_page = 0` the floor division in
`get_incidents` divides by zero, so the call errors out instead of returning a
page. -/
theorem listPerPageZeroFails : get_incidents seedState none none 1 0 = none := by
  simp [get_incidents]

/-- C1 (amended): `list` succeeds on every input whose `per_page` is nonzero
(any filters, any page, negative `per_page` included), and fails with a
division-by-zero error exactly at `per_page = 0`. -/
theorem listTotalSuccess (s : StoreState) (st sv : Option String)
    (page pp : Int) (h : pp ≠ 0) :
    (∃ r, get_incidents s st sv page pp = some r) ∧
    get_incidents s st sv page 0 = none := by
  constructor
  · have hmin : ¬ (min pp 100 = 0) := by omega
    simp only [get_incidents]
    rw [if_neg hmin]
    exact ⟨_, rfl⟩
  · simp [get_incidents]

/-- Instance of `listTotalSuccess` at a concrete input. -/
theorem listTotalSuccess_witness :
    (∃ r, get_incidents seedState none none 1 10 = some r) ∧
    get_incidents seedState none none 1 0 = none :=
  listTotalSuccess seedState none none 1 10 (by decide)

/-- C2 fails as stated: pydantic only requires the fields to be present, so an
empty `title` passes validation and POST creates a record with an empty title,
and an empty `status` passes validation and PATCH stores it. -/
theorem emptyTextPassesValidation :
    post_incident seedState (some "") none (some "high") =
      some (⟨4, "", "open", "high"⟩,
            ⟨seedIncidents ++ [⟨4, "", "open", "high"⟩], 4⟩) ∧
    patch_incident seedState 1 (some "") =
      some (⟨[⟨1, "Phishing Email Campaign Detected", "", "high"⟩,
              ⟨2, "Malware Detected on Endpoint", "closed", "medium"⟩,
              ⟨3, "Suspicious Login from Foreign IP", "under investigation", "low"⟩], 3⟩,
            some ⟨1, "Phishing Email Campaign Detected", "", "high"⟩) := by
  constructor <;> rfl

/-- C2 (amended): validation checks presence only. POST fails (returning no
new state, so the store is untouched) exactly when `title` or `severity` is
absent from the body, and PATCH fails exactly when the `status` field is
absent; every present string value, the empty string included, passes
validation. -/
theorem validationPresenceOnly (s : StoreState) (title status severity : Option String)
    (incident_id : Int) (newStatus : Option String) :
    (post_incident s title status severity = none ↔ title = none ∨ severity = none) ∧
    (patch_incident s incident_id newStatus = none ↔ newStatus = none) := by
  constructor
  · cases title <;> cases severity <;>
      simp [post_incident, validateIncidentCreate]
  · cases newStatus <;> simp [patch_incident, validateIncidentUpdate]

/-- C4: with non-empty filter strings, the sequence that `list` keeps (and
then paginates) is exactly the sublist of the collection matching the filter
case-insensitively, in original relative order; both filters together act as a
logical AND; and `list` reports its length as `total`. -/
theorem filterCorrect (s : StoreState) (S T : String) (hS : S ≠ "") (hT : T ≠ "") :
    listFiltered s (some S) none
      = s.incidents.filter (fun i => i.status.toLower == S.toLower) ∧
    listFiltered s none (some T)
      = s.incidents.filter (fun i => i.severity.toLower == T.toLower) ∧
    listFiltered s (some S) (some T)
      = s.incidents.filter
          (fun i => i.status.toLower == S.toLower && i.severity.toLower == T.toLower) ∧
    (∀ page pp : Int, pp ≠ 0 → ∃ r, get_incidents s (some S) (some T) page pp = some r ∧
      r.total = ((s.incidents.filter
        (fun i => i.status.toLower == S.toLower && i.severity.toLower == T.toLower)).length
        : Int)) := by
  have h3 : listFiltered s (some S) (some T)
      = s.incidents.filter
          (fun i => i.status.toLower == S.toLower && i.severity.toLower == T.toLower) := by
    simp only [listFiltered, applyFilter, if_neg hS, if_neg hT, List.filter_filter]
    refine List.filter_congr (fun i hi => ?_)
    rw [Bool.and_comm]
  refine ⟨?_, ?_, h3, ?_⟩
  · simp [listFiltered, applyFilter, hS]
  · simp [listFiltered, applyFilter, hT]
  · intro page pp hpp
    have hmin : ¬ (min pp 100 = 0) := by omega
    simp only [get_incidents]
    rw [if_neg hmin]
    exact ⟨_, rfl, by rw [h3]⟩

/-- Instance of `filterCorrect` at the seed state with upper-case filters. -/
theorem filterCorrect_witness :
    listFiltered seedState (some "OPEN") none
      = seedState.incidents.filter (fun i => i.status.toLower == "OPEN".toLower) ∧
    listFiltered seedState none (some "HIGH")
      = seedState.incidents.filter (fun i => i.severity.toLower == "HIGH".toLower) ∧
    listFiltered seedState (some "OPEN") (some "HIGH")
      = seedState.incidents.filter
          (fun i => i.status.toLower == "OPEN".toLower
            && i.severity.toLower == "HIGH".toLower) ∧
    (∀ page pp : Int, pp ≠ 0 →
      ∃ r, get_incidents seedState (some "OPEN") (some "HIGH") page pp = some r ∧
      r.total = ((seedState.incidents.filter
        (fun i => i.status.toLower == "OPEN".toLower
          && i.severity.toLower == "HIGH".toLower)).length : Int)) :=
  filterCorrect seedState "OPEN" "HIGH" (by decide) (by decide)

/-- The update scan misses exactly when no incident has the id. -/
lemma updateList_none_iff (l : List Incident) (incident_id : Int) (ns : String) :
    (updateList l incident_id ns).2 = none ↔ ∀ i ∈ l, i.id ≠ incident_id := by
  induction l with
  | nil => simp [updateList]
  | cons i rest ih =>
    by_cases h : i.id = incident_id
    · simp [updateList, h]
    · simp [updateList, h, ih]

/-- A missed update scan leaves the list unchanged. -/
lemma updateList_none_eq (l : List Incident) (incident_id : Int) (ns : String)
    (h : (updateList l incident_id ns).2 = none) :
    (updateList l incident_id ns).1 = l := by
  induction l with
  | nil => rfl
  | cons i rest ih =>
    by_cases hid : i.id = incident_id
    · simp [updateList, hid] at h
    · simp only [updateList, beq_iff_eq, if_neg hid] at h ⊢
      rw [ih h]

/-- The update scan at the first id match replaces only that record's status. -/
lemma updateList_found (l₁ l₂ : List Incident) (x : Incident) (incident_id : Int)
    (ns : String) (hx : x.id = incident_id) (hl₁ : ∀ i ∈ l₁, i.id ≠ incident_id) :
    updateList (l₁ ++ x :: l₂) incident_id ns
      = (l₁ ++ ({ x with status := ns }) :: l₂, some { x with status := ns }) := by
  induction l₁ with
  | nil => simp [updateList, hx]
  | cons i rest ih =>
    have hi : i.id ≠ incident_id := hl₁ i (by simp)
    simp only [List.cons_append, updateList, beq_iff_eq, if_neg hi, List.append_eq]
    rw [ih (fun j hj => hl₁ j (by simp [hj]))]

/-- The delete scan misses exactly when no incident has the id. -/
lemma deleteList_none_iff (l : List Incident) (incident_id : Int) :
    (deleteList l incident_id).2 = none ↔ ∀ i ∈ l, i.id ≠ incident_id := by
  induction l with
  | nil => simp [deleteList]
  | cons i rest ih =>
    by_cases h : i.id = incident_id
    · simp [deleteList, h]
    · simp [deleteList, h, ih]

/-- A missed delete scan leaves the list unchanged. -/
lemma deleteList_none_eq (l : List Incident) (incident_id : Int)
    (h : (deleteList l incident_id).2 = none) :
    (deleteList l incident_id).1 = l := by
  induction l with
  | nil => rfl
  | cons i rest ih =>
    by_cases hid : i.id = incident_id
    · simp [deleteList, hid] at h
    · simp only [deleteList, beq_iff_eq, if_neg hid] at h ⊢
      rw [ih h]

/-- The delete scan at the first id match pops exactly that record. -/
lemma deleteList_found (l₁ l₂ : List Incident) (x : Incident) (incident_id : Int)
    (hx : x.id = incident_id) (hl₁ : ∀ i ∈ l₁, i.id ≠ incident_id) :
    deleteList (l₁ ++ x :: l₂) incident_id = (l₁ ++ l₂, some x) := by
  induction l₁ with
  | nil => simp [deleteList, hx]
  | cons i rest ih =>
    have hi : i.id ≠ incident_id := hl₁ i (by simp)
    simp only [List.cons_append, deleteList, beq_iff_eq, if_neg hi, List.append_eq]
    rw [ih (fun j hj => hl₁ j (by simp [hj]))]

/-- Inversion of a successful delete scan: the list splits around the removed
record, which is the first id match. -/
lemma deleteList_some (l : List Incident) (incident_id : Int) (x : Incident)
    (h : (deleteList l incident_id).2 = some x) :
    ∃ l₁ l₂, l = l₁ ++ x :: l₂ ∧ x.id = incident_id ∧
      (deleteList l incident_id).1 = l₁ ++ l₂ ∧ ∀ i ∈ l₁, i.id ≠ incident_id := by
  induction l with
  | nil => simp [deleteList] at h
  | cons i rest ih =>
    by_cases hid : i.id = incident_id
    · simp only [deleteList, beq_iff_eq, if_pos hid] at h ⊢
      obtain rfl : i = x := by injection h
      exact ⟨[], rest, rfl, hid, rfl, by simp⟩
    · simp only [deleteList, beq_iff_eq, if_neg hid] at h ⊢
      obtain ⟨l₁, l₂, hsplit, hxid, h1, h2⟩ := ih h
      refine ⟨i :: l₁, l₂, by simp [hsplit], hxid, by simp [h1], ?_⟩
      intro j hj
      rcases List.mem_cons.mp hj with rfl | hj2
      · exact hid
      · exact h2 j hj2

/-- C6: from any state whose ids do not exceed the counter, POST with `status`
unspecified allocates the fresh id `counter + 1`, appends the new record at
the end, returns it, and an immediate `get` of the new id returns a record
with status `"open"` and the given title and severity. -/
theorem createGetRoundTrip (s : StoreState) (T V : String)
    (hids : ∀ i ∈ s.incidents, i.id ≤ s.counter) :
    ∃ p : Incident × StoreState,
      post_incident s (some T) none (some V) = some p ∧
      p.1.id = s.counter + 1 ∧
      p.2.incidents = s.incidents ++ [p.1] ∧
      p.2.counter = s.counter + 1 ∧
      get_incident p.2 p.1.id = some p.1 ∧
      p.1.status = "open" ∧ p.1.title = T ∧ p.1.severity = V := by
  have key : post_incident s (some T) none (some V) =
      some ((⟨s.counter + 1, T, "open", V⟩ : Incident),
            (⟨s.incidents ++ [⟨s.counter + 1, T, "open", V⟩], s.counter + 1⟩
              : StoreState)) := rfl
  refine ⟨_, key, rfl, rfl, rfl, ?_, rfl, rfl, rfl⟩
  show (s.incidents ++ [(⟨s.counter + 1, T, "open", V⟩ : Incident)]).find?
      (fun i => i.id == s.counter + 1)
    = some (⟨s.counter + 1, T, "open", V⟩ : Incident)
  rw [List.find?_append]
  have h1 : s.incidents.find? (fun i => i.id == s.counter + 1) = none := by
    rw [List.find?_eq_none]
    intro i hi
    have := hids i hi
    simp only [beq_iff_eq]
    omega
  rw [h1]
  simp

/-- Instance of `createGetRoundTrip` at the seed state. -/
theorem createGetRoundTrip_witness :
    ∃ p : Incident × StoreState,
      post_incident seedState (some "T") none (some "high") = some p ∧
      p.1.id = seedState.counter + 1 ∧
      p.2.incidents = seedState.incidents ++ [p.1] ∧
      p.2.counter = seedState.counter + 1 ∧
      get_incident p.2 p.1.id = some p.1 ∧
      p.1.status = "open" ∧ p.1.title = "T" ∧ p.1.severity = "high" :=
  createGetRoundTrip seedState "T" "high" (by decide)

/-- C7: `get`, `update_status`, and `delete` miss exactly when no incident has
the requested id; a miss leaves the store unchanged; a successful delete
returns a record that was in the collection with the requested id, and a `get`
of that id afterwards misses. -/
theorem notFoundIffAbsent (s : StoreState) (incident_id : Int) (ns : String)
    (hnd : (s.incidents.map Incident.id).Nodup) :
    (get_incident s incident_id = none ↔ ∀ i ∈ s.incidents, i.id ≠ incident_id) ∧
    ((update_incident s incident_id ns).2 = none ↔
      ∀ i ∈ s.incidents, i.id ≠ incident_id) ∧
    ((update_incident s incident_id ns).2 = none →
      (update_incident s incident_id ns).1 = s) ∧
    ((delete_incident s incident_id).2 = none ↔
      ∀ i ∈ s.incidents, i.id ≠ incident_id) ∧
    ((delete_incident s incident_id).2 = none →
      (delete_incident s incident_id).1 = s) ∧
    (∀ x, (delete_incident s incident_id).2 = some x →
      x ∈ s.incidents ∧ x.id = incident_id ∧
      get_incident (delete_incident s incident_id).1 incident_id = none) := by
  refine ⟨?_, updateList_none_iff _ _ _, ?_, deleteList_none_iff _ _, ?_, ?_⟩
  · rw [get_incident, List.find?_eq_none]
    simp
  · intro h
    show ({ s with incidents := (updateList s.incidents incident_id ns).1 }
      : StoreState) = s
    rw [updateList_none_eq _ _ _ h]
  · intro h
    show ({ s with incidents := (deleteList s.incidents incident_id).1 }
      : StoreState) = s
    rw [deleteList_none_eq _ _ h]
  · intro x hx
    obtain ⟨l₁, l₂, hsplit, hxid, hdel, hl₁⟩ := deleteList_some _ _ _ hx
    refine ⟨by rw [hsplit]; simp, hxid, ?_⟩
    show ((deleteList s.incidents incident_id).1).find?
      (fun i => i.id == incident_id) = none
    rw [hdel, List.find?_eq_none]
    intro j hj
    simp only [beq_iff_eq]
    rw [hsplit] at hnd
    simp only [List.map_append, List.map_cons] at hnd
    rcases List.mem_append.mp hj with hj1 | hj2
    · exact hl₁ j hj1
    · intro hjid
      have h2 : x.id ∉ l₂.map Incident.id :=
        (List.nodup_cons.mp (List.Nodup.of_append_right hnd)).1
      exact h2 (by
        rw [← hxid] at hjid
        exact hjid ▸ List.mem_map_of_mem Incident.id hj2)

/-- Instance of `notFoundIffAbsent` at the seed state, id 2. -/
theorem notFoundIffAbsent_witness :
    (get_incident seedState 2 = none ↔ ∀ i ∈ seedState.incidents, i.id ≠ 2) ∧
    ((update_incident seedState 2 "closed").2 = none ↔
      ∀ i ∈ seedState.incidents, i.id ≠ 2) ∧
    ((update_incident seedState 2 "closed").2 = none →
      (update_incident seedState 2 "closed").1 = seedState) ∧
    ((delete_incident seedState 2).2 = none ↔
      ∀ i ∈ seedState.incidents, i.id ≠ 2) ∧
    ((delete_incident seedState 2).2 = none →
      (delete_incident seedState 2).1 = seedState) ∧
    (∀ x, (delete_incident seedState 2).2 = some x →
      x ∈ seedState.incidents ∧ x.id = 2 ∧
      get_incident (delete_incident seedState 2).1 2 = none) :=
  notFoundIffAbsent seedState 2 "closed" (by decide)

/-- In a collection with pairwise distinct ids, split around `x`, no record on
either side shares `x`'s id. -/
lemma nodup_split_no_match (l₁ l₂ : List Incident) (x : Incident)
    (hnd : ((l₁ ++ x :: l₂).map Incident.id).Nodup) :
    (∀ i ∈ l₁, i.id ≠ x.id) ∧ (∀ i ∈ l₂, i.id ≠ x.id) := by
  simp only [List.map_append, List.map_cons] at hnd
  rw [List.nodup_append] at hnd
  obtain ⟨h1, h2, hdisj⟩ := hnd
  constructor
  · intro i hi hieq
    exact hdisj (hieq ▸ List.mem_map_of_mem Incident.id hi) (List.mem_cons_self _ _)
  · intro i hi hieq
    exact (List.nodup_cons.mp h2).1 (hieq ▸ List.mem_map_of_mem Incident.id hi)

/-- C8: when an incident with the given id is present (ids pairwise distinct),
`update_status` replaces only that record's status — its id, title and
severity stay, every other record stays in place, the collection's length,
order and the counter stay — and returns the updated record. -/
theorem updateFrame (s : StoreState) (incident_id : Int) (ns : String)
    (x : Incident) (hnd : (s.incidents.map Incident.id).Nodup)
    (hmem : x ∈ s.incidents) (hx : x.id = incident_id) :
    ∃ l₁ l₂,
      s.incidents = l₁ ++ x :: l₂ ∧
      (update_incident s incident_id ns).1.incidents
        = l₁ ++ ({ x with status := ns }) :: l₂ ∧
      (update_incident s incident_id ns).2 = some { x with status := ns } ∧
      (update_incident s incident_id ns).1.counter = s.counter ∧
      (update_incident s incident_id ns).1.incidents.length
        = s.incidents.length := by
  obtain ⟨l₁, l₂, hsplit⟩ := List.append_of_mem hmem
  have hl₁ : ∀ i ∈ l₁, i.id ≠ incident_id := by
    intro i hi
    rw [← hx]
    exact (nodup_split_no_match l₁ l₂ x (hsplit ▸ hnd)).1 i hi
  have hupd := updateList_found l₁ l₂ x incident_id ns hx hl₁
  refine ⟨l₁, l₂, hsplit, ?_, ?_, rfl, ?_⟩
  · show (updateList s.incidents incident_id ns).1 = _
    rw [hsplit, hupd]
  · show (updateList s.incidents incident_id ns).2 = _
    rw [hsplit, hupd]
  · show (updateList s.incidents incident_id ns).1.length = _
    rw [hsplit, hupd]
    simp

/-- Instance of `updateFrame` at the seed state, id 1. -/
theorem updateFrame_witness :
    ∃ l₁ l₂,
      seedState.incidents
        = l₁ ++ (⟨1, "Phishing Email Campaign Detected", "open", "high"⟩
            : Incident) :: l₂ ∧
      (update_incident seedState 1 "closed").1.incidents
        = l₁ ++ (⟨1, "Phishing Email Campaign Detected", "closed", "high"⟩
            : Incident) :: l₂ ∧
      (update_incident seedState 1 "closed").2
        = some ⟨1, "Phishing Email Campaign Detected", "closed", "high"⟩ ∧
      (update_incident seedState 1 "closed").1.counter = seedState.counter ∧
      (update_incident seedState 1 "closed").1.incidents.length
        = seedState.incidents.length :=
  updateFrame seedState 1 "closed" ⟨1, "Phishing Email Campaign Detected", "open", "high"⟩
    (by decide) (by decide) (by decide)

/-- The update scan never changes the sequence of ids. -/
lemma updateList_map_id (l : List Incident) (incident_id : Int) (ns : String) :
    (updateList l incident_id ns).1.map Incident.id = l.map Incident.id := by
  induction l with
  | nil => rfl
  | cons i rest ih =>
    by_cases h : i.id = incident_id <;> simp [updateList, h, ih]

/-- The delete scan returns a sublist of the collection. -/
lemma deleteList_sublist (l : List Incident) (incident_id : Int) :
    ((deleteList l incident_id).1).Sublist l := by
  induction l with
  | nil => simp [deleteList]
  | cons i rest ih =>
    by_cases h : i.id = incident_id
    · simp only [deleteList, beq_iff_eq, if_pos h]
      exact List.sublist_cons_self i rest
    · simp only [deleteList, beq_iff_eq, if_neg h]
      exact ih.cons₂ i

/-- The store invariant: pairwise distinct ids, all bounded by the counter. -/
def Inv (s : StoreState) : Prop :=
  ((s.incidents.map Incident.id).Nodup) ∧ ∀ i ∈ s.incidents, i.id ≤ s.counter

/-- Every mutating operation preserves the store invariant. -/
lemma inv_step (s : StoreState) (op : Op) (h : Inv s) : Inv (step s op) := by
  obtain ⟨hnd, hle⟩ := h
  cases op with
  | create t st sv =>
    constructor
    · show ((s.incidents
        ++ [(⟨s.counter + 1, t, st, sv⟩ : Incident)]).map Incident.id).Nodup
      simp only [List.map_append, List.map_cons, List.map_nil]
      rw [List.nodup_append]
      refine ⟨hnd, List.nodup_singleton _, ?_⟩
      intro a ha hb
      obtain ⟨j, hj, rfl⟩ := List.mem_map.mp ha
      have h1 := hle j hj
      have h2 : j.id = s.counter + 1 := by
        rcases List.mem_cons.mp hb with h3 | h3
        · exact h3
        · simp at h3
      omega
    · intro i hi
      show i.id ≤ s.counter + 1
      rcases List.mem_append.mp hi with h1 | h2
      · have := hle i h1; omega
      · rcases List.mem_singleton.mp h2 with rfl
        exact le_rfl
  | update incident_id ns =>
    constructor
    · show ((updateList s.incidents incident_id ns).1.map Incident.id).Nodup
      rw [updateList_map_id]
      exact hnd
    · intro i hi
      show i.id ≤ s.counter
      have hmm : i.id ∈ (updateList s.incidents incident_id ns).1.map Incident.id :=
        List.mem_map_of_mem Incident.id hi
      rw [updateList_map_id] at hmm
      obtain ⟨j, hj, hji⟩ := List.mem_map.mp hmm
      rw [← hji]
      exact hle j hj
  | del incident_id =>
    constructor
    · show ((deleteList s.incidents incident_id).1.map Incident.id).Nodup
      exact hnd.sublist ((deleteList_sublist _ _).map Incident.id)
    · intro i hi
      exact hle i ((deleteList_sublist _ _).subset hi)

/-- Running from a state with the invariant keeps the invariant. -/
lemma inv_run (s : StoreState) (ops : List Op) (h : Inv s) : Inv (run s ops) := by
  induction ops generalizing s with
  | nil => exact h
  | cons op rest ih => exact ih (step s op) (inv_step s op h)

/-- The counter never decreases across a step. -/
lemma counter_step (s : StoreState) (op : Op) : s.counter ≤ (step s op).counter := by
  cases op with
  | create t st sv => show s.counter ≤ s.counter + 1; omega
  | update i st => exact le_rfl
  | del i => exact le_rfl

/-- The counter never decreases across a run. -/
lemma counter_run (s : StoreState) (ops : List Op) :
    s.counter ≤ (run s ops).counter := by
  induction ops generalizing s with
  | nil => exact le_rfl
  | cons op rest ih => exact le_trans (counter_step s op) (ih (step s op))

/-- The ids the creates in a run obtain from the allocator, in order. -/
def runIssued : StoreState → List Op → List Int
  | _, [] => []
  | s, Op.create t st sv :: rest =>
    (create_incident s t st sv).1.id :: runIssued (step s (Op.create t st sv)) rest
  | s, Op.update i st :: rest => runIssued (step s (Op.update i st)) rest
  | s, Op.del i :: rest => runIssued (step s (Op.del i)) rest

/-- Every id a run issues is bounded by the final counter. -/
lemma runIssued_le (s : StoreState) (ops : List Op) :
    ∀ v ∈ runIssued s ops, v ≤ (run s ops).counter := by
  induction ops generalizing s with
  | nil => simp [runIssued]
  | cons op rest ih =>
    cases op with
    | create t st sv =>
      intro v hv
      rcases List.mem_cons.mp hv with rfl | hv2
      · show (create_incident s t st sv).1.id ≤ (run (step s _) rest).counter
        exact counter_run (step s (Op.create t st sv)) rest
      · exact ih (step s (Op.create t st sv)) v hv2
    | update i st =>
      intro v hv
      exact ih (step s (Op.update i st)) v hv
    | del i =>
      intro v hv
      exact ih (step s (Op.del i)) v hv

/-- C9: after every operation sequence from the seed: the ids in the
collection are pairwise distinct and bounded by the counter; the counter
never decreases under further operations; every id issued so far is strictly
below the id any later create returns (no reuse, deleted ids included);
create appends at the end; update keeps the id sequence; a successful delete
removes exactly the matched element, keeping the order of the rest. -/
theorem storeInvariant (ops : List Op) :
    (((run seedState ops).incidents.map Incident.id).Nodup) ∧
    (∀ i ∈ (run seedState ops).incidents, i.id ≤ (run seedState ops).counter) ∧
    (∀ more : List Op,
      (run seedState ops).counter ≤ (run (run seedState ops) more).counter) ∧
    (∀ v ∈ runIssued seedState ops, ∀ more : List Op, ∀ t st sv : String,
      v < (create_incident (run seedState (ops ++ more)) t st sv).1.id) ∧
    (∀ t st sv : String,
      (step (run seedState ops) (Op.create t st sv)).incidents
        = (run seedState ops).incidents
          ++ [(create_incident (run seedState ops) t st sv).1]) ∧
    (∀ incident_id : Int, ∀ newStatus : String,
      (step (run seedState ops) (Op.update incident_id newStatus)).incidents.map
          Incident.id
        = (run seedState ops).incidents.map Incident.id) ∧
    (∀ x : Incident, ∀ incident_id : Int,
      x ∈ (run seedState ops).incidents → x.id = incident_id →
      ∃ l₁ l₂, (run seedState ops).incidents = l₁ ++ x :: l₂ ∧
        (step (run seedState ops) (Op.del incident_id)).incidents = l₁ ++ l₂) := by
  have hinv : Inv (run seedState ops) :=
    inv_run seedState ops ⟨by decide, by decide⟩
  refine ⟨hinv.1, hinv.2, counter_run _, ?_, fun t st sv => rfl,
    fun incident_id newStatus => updateList_map_id _ _ _, ?_⟩
  · intro v hv more t st sv
    have h1 : v ≤ (run seedState ops).counter := runIssued_le seedState ops v hv
    have happ : run seedState (ops ++ more) = run (run seedState ops) more :=
      List.foldl_append step seedState ops more
    have h2 : (run seedState ops).counter ≤ (run seedState (ops ++ more)).counter := by
      rw [happ]
      exact counter_run (run seedState ops) more
    show v < (run seedState (ops ++ more)).counter + 1
    omega
  · intro x incident_id hmem hx
    obtain ⟨l₁, l₂, hsplit⟩ := List.append_of_mem hmem
    have hl₁ : ∀ i ∈ l₁, i.id ≠ incident_id := by
      intro i hi
      rw [← hx]
      exact (nodup_split_no_match l₁ l₂ x (hsplit ▸ hinv.1)).1 i hi
    refine ⟨l₁, l₂, hsplit, ?_⟩
    show (deleteList (run seedState ops).incidents incident_id).1 = l₁ ++ l₂
    rw [hsplit, deleteList_found l₁ l₂ x incident_id hx hl₁]

/-- Instance of `storeInvariant` after create then delete, with the
membership-dependent delete clause and the no-reuse clause discharged at
concrete inputs. -/
theorem storeInvariant_witness :
    (((run seedState [Op.create "X" "open" "low", Op.del 2]).incidents.map
      Incident.id).Nodup) ∧
    ((4 : Int) <
      (create_incident
        (run seedState ([Op.create "X" "open" "low", Op.del 2]
          ++ [Op.create "Y" "open" "low"])) "Z" "open" "low").1.id) ∧
    (∃ l₁ l₂,
      (run seedState [Op.create "X" "open" "low", Op.del 2]).incidents
        = l₁ ++ (⟨3, "Suspicious Login from Foreign IP", "under investigation",
            "low"⟩ : Incident) :: l₂ ∧
      (step (run seedState [Op.create "X" "open" "low", Op.del 2])
          (Op.del 3)).incidents = l₁ ++ l₂) :=
  ⟨(storeInvariant [Op.create "X" "open" "low", Op.del 2]).1,
   (storeInvariant [Op.create "X" "open" "low", Op.del 2]).2.2.2.1 4 (by decide)
     [Op.create "Y" "open" "low"] "Z" "open" "low",
   (storeInvariant [Op.create "X" "open" "low", Op.del 2]).2.2.2.2.2.2
     ⟨3, "Suspicious Login from Foreign IP", "under investigation", "low"⟩ 3
     (by decide) rfl⟩

/-- The successful branch of `get_incidents`, as an equation. -/
lemma get_incidents_eq (s : StoreState) (st sv : Option String) (page pp : Int)
    (h : ¬ (min pp 100 = 0)) :
    get_incidents s st sv page pp =
      some ⟨pySlice (listFiltered s st sv) ((page - 1) * min pp 100)
              ((page - 1) * min pp 100 + min pp 100),
            ((listFiltered s st sv).length : Int), page, min pp 100,
            Int.fdiv (((listFiltered s st sv).length : Int) + min pp 100 - 1)
              (min pp 100)⟩ := by
  simp only [get_incidents]
  rw [if_neg h]

/-- C5 fails as stated: with a negative `per_page` the floor-division formula
of `get_incidents` is not a ceiling; on a store whose collection is empty
(`total = 0`, reachable by deleting every record) and `per_page = -3` the code
reports `total_pages = 1`, not 0. -/
theorem paginationNegPerPage :
    ∃ r, get_incidents ⟨[], 3⟩ none none 1 (-3) = some r ∧
      r.total = 0 ∧ r.total_pages ≠ 0 :=
  ⟨⟨[], 0, 1, -3, 1⟩, by decide, rfl, by decide⟩

/-- Python slicing with nonnegative bounds is drop-then-take. -/
lemma pySlice_natCast {α : Type} (l : List α) (a b : Nat) :
    pySlice l (a : Int) (b : Int) = (l.drop a).take (b - a) := by
  simp only [pySlice]
  rw [if_neg (by omega), if_neg (by omega)]
  have h1 : min (a : Int) (l.length : Int) = ((min a l.length : Nat) : Int) := by
    push_cast
    rfl
  have h2 : min (b : Int) (l.length : Int) = ((min b l.length : Nat) : Int) := by
    push_cast
    rfl
  rw [h1, h2, Int.toNat_natCast, Int.toNat_sub]
  by_cases hal : a ≤ l.length
  · rw [Nat.min_eq_left hal]
    by_cases hbl : b ≤ l.length
    · rw [Nat.min_eq_left hbl]
    · rw [Nat.min_eq_right (by omega)]
      have hlen : (l.drop a).length = l.length - a := by simp
      rw [List.take_of_length_le (by omega), List.take_of_length_le (by omega)]
  · rw [Nat.min_eq_right (show l.length ≤ a by omega)]
    have hda : l.drop a = [] := List.drop_eq_nil_of_le (by omega)
    have hdn : l.drop l.length = [] := List.drop_eq_nil_of_le le_rfl
    rw [hda, hdn]
    simp

/-- Bounds pinning `(t + q - 1) / q` as the ceiling of `t / q`. -/
lemma ceil_div_bounds (t q d : Nat) (hq : 1 ≤ q) (hd : d = (t + q - 1) / q) :
    t ≤ d * q ∧ d * q < t + q := by
  have h1 := Nat.div_add_mod (t + q - 1) q
  rw [← hd] at h1
  have h2 : (t + q - 1) % q < q := Nat.mod_lt _ (by omega)
  generalize hr : (t + q - 1) % q = r at h1 h2
  rw [mul_comm d q]
  generalize hm : q * d = m at h1 ⊢
  omega

/-- Concatenating the `take p` chunks at offsets `0, p, 2p, ...`, one chunk
per page and `ceil(length / p)` pages, rebuilds the list. -/
lemma pages_flatten {α : Type} (p : Nat) (hp : 0 < p) :
    ∀ (N : Nat) (l : List α), l.length ≤ N →
      ((List.range ((l.length + p - 1) / p)).map
        (fun k => (l.drop (k * p)).take p)).flatten = l := by
  intro N
  induction N with
  | zero =>
    intro l hl
    have h0 : l = [] := List.eq_nil_of_length_eq_zero (by omega)
    subst h0
    have hz : (0 + p - 1) / p = 0 := Nat.div_eq_of_lt (by omega)
    simp [hz]
  | succ N ih =>
    intro l hl
    by_cases h0 : l.length = 0
    · have h0' : l = [] := List.eq_nil_of_length_eq_zero h0
      subst h0'
      have hz : (0 + p - 1) / p = 0 := Nat.div_eq_of_lt (by omega)
      simp [hz]
    · have hn : 1 ≤ l.length := by omega
      have h1 : l.length + p - 1 = (l.length - 1) + p := by omega
      rw [h1, Nat.add_div_right _ hp, List.range_succ_eq_map]
      rw [List.map_cons, List.flatten_cons, List.map_map]
      have hhead : (l.drop (0 * p)).take p = l.take p := by simp
      rw [hhead]
      have htail : List.map ((fun k => (l.drop (k * p)).take p) ∘ Nat.succ)
          (List.range ((l.length - 1) / p))
          = List.map (fun k => ((l.drop p).drop (k * p)).take p)
              (List.range ((l.length - 1) / p)) := by
        refine List.map_congr_left (fun k hk => ?_)
        simp only [Function.comp_apply]
        rw [List.drop_drop, Nat.succ_mul, Nat.add_comm (k * p) p]
      rw [htail]
      have h2 : (l.length - 1) / p = ((l.drop p).length + p - 1) / p := by
        rw [List.length_drop]
        by_cases hnp : p ≤ l.length
        · congr 1
          omega
        · have harg2 : l.length - p + p - 1 = p - 1 := by omega
          rw [harg2, Nat.div_eq_of_lt (show l.length - 1 < p by omega),
            Nat.div_eq_of_lt (show p - 1 < p by omega)]
      rw [h2, ih (l.drop p) (by rw [List.length_drop]; omega)]
      exact List.take_append_drop p l

/-- C5 (amended): for every requested `per_page ≥ 1`: `list` succeeds and
reports `per_page = min(per_page, 100)` (so `per_page = 1000` reports 100),
`total` is the filtered count before pagination, `total_pages` is the ceiling
of `total / per_page` — pinned by `total ≤ total_pages * per_page <
total + per_page` — hence 0 when `total` is 0; and for `per_page ≤ 100`,
concatenating the pages `1 .. total_pages` rebuilds the filtered sequence,
each element exactly once. (For negative `per_page` the code still answers,
but its floor-division formula is no longer a ceiling.) -/
theorem paginationMeta (s : StoreState) (st sv : Option String) (page pp : Int)
    (hpp : 1 ≤ pp) :
    ∃ r, get_incidents s st sv page pp = some r ∧
      r.per_page = min pp 100 ∧
      r.total = ((listFiltered s st sv).length : Int) ∧
      (r.total ≤ r.total_pages * r.per_page ∧
        r.total_pages * r.per_page < r.total + r.per_page) ∧
      (r.total = 0 → r.total_pages = 0) ∧
      (pp ≤ 100 →
        ((List.range r.total_pages.toNat).map (fun (k : Nat) =>
          ((get_incidents s st sv ((k : Int) + 1) pp).map
            PaginatedResponse.incidents).getD [])).flatten
        = listFiltered s st sv) := by
  have hmin1 : (1 : Int) ≤ min pp 100 := by omega
  have hne : ¬ (min pp 100 = 0) := by omega
  obtain ⟨p, hpcast⟩ : ∃ q : Nat, (q : Int) = min pp 100 :=
    ⟨(min pp 100).toNat, Int.toNat_of_nonneg (by omega)⟩
  have hppos : 0 < p := by omega
  have harg : ((listFiltered s st sv).length : Int) + min pp 100 - 1
      = (((listFiltered s st sv).length + p - 1 : Nat) : Int) := by
    rw [← hpcast,
      Nat.cast_sub (by omega : 1 ≤ (listFiltered s st sv).length + p)]
    push_cast
    ring
  have htp : Int.fdiv (((listFiltered s st sv).length : Int) + min pp 100 - 1)
        (min pp 100)
      = ((((listFiltered s st sv).length + p - 1) / p : Nat) : Int) := by
    rw [harg, ← hpcast]
    exact (Int.ofNat_fdiv _ _).symm
  refine ⟨_, get_incidents_eq s st sv page pp hne, rfl, rfl, ?_, ?_, ?_⟩
  · show ((listFiltered s st sv).length : Int)
        ≤ Int.fdiv (((listFiltered s st sv).length : Int) + min pp 100 - 1)
            (min pp 100) * min pp 100
      ∧ Int.fdiv (((listFiltered s st sv).length : Int) + min pp 100 - 1)
            (min pp 100) * min pp 100
        < ((listFiltered s st sv).length : Int) + min pp 100
    rw [htp, ← hpcast]
    obtain ⟨hb1, hb2⟩ := ceil_div_bounds (listFiltered s st sv).length p
      (((listFiltered s st sv).length + p - 1) / p) (by omega) rfl
    constructor
    · exact_mod_cast hb1
    · exact_mod_cast hb2
  · intro h0
    have h0' : ((listFiltered s st sv).length : Int) = 0 := h0
    have hn0 : (listFiltered s st sv).length = 0 := by exact_mod_cast h0'
    show Int.fdiv (((listFiltered s st sv).length : Int) + min pp 100 - 1)
        (min pp 100) = 0
    rw [htp, hn0]
    have hz : (0 + p - 1) / p = 0 := Nat.div_eq_of_lt (by omega)
    rw [hz]
    rfl
  · intro hpp100
    show ((List.range (Int.toNat (Int.fdiv
          (((listFiltered s st sv).length : Int) + min pp 100 - 1)
          (min pp 100)))).map (fun (k : Nat) =>
        ((get_incidents s st sv ((k : Int) + 1) pp).map
          PaginatedResponse.incidents).getD [])).flatten
      = listFiltered s st sv
    rw [htp, Int.toNat_natCast]
    have hpage : ∀ k : Nat,
        ((get_incidents s st sv ((k : Int) + 1) pp).map
          PaginatedResponse.incidents).getD []
          = ((listFiltered s st sv).drop (k * p)).take p := by
      intro k
      rw [get_incidents_eq s st sv _ pp hne]
      simp only [Option.map_some', Option.getD_some]
      have hstart : ((k : Int) + 1 - 1) * min pp 100 = ((k * p : Nat) : Int) := by
        rw [← hpcast]
        push_cast
        ring
      have hstop : ((k : Int) + 1 - 1) * min pp 100 + min pp 100
          = ((k * p + p : Nat) : Int) := by
        rw [← hpcast]
        push_cast
        ring
      rw [hstop, hstart, pySlice_natCast]
      congr 1
      exact Nat.add_sub_cancel_left (k * p) p
    rw [List.map_congr_left (fun k hk => hpage k)]
    exact pages_flatten p hppos (listFiltered s st sv).length
      (listFiltered s st sv) le_rfl

/-- Instance of `paginationMeta` at the seed state, `per_page = 2`. -/
theorem paginationMeta_witness :
    ∃ r, get_incidents seedState none none 1 2 = some r ∧
      r.per_page = min 2 100 ∧
      r.total = ((listFiltered seedState none none).length : Int) ∧
      (r.total ≤ r.total_pages * r.per_page ∧
        r.total_pages * r.per_page < r.total + r.per_page) ∧
      (r.total = 0 → r.total_pages = 0) ∧
      ((2 : Int) ≤ 100 →
        ((List.range r.total_pages.toNat).map (fun (k : Nat) =>
          ((get_incidents seedState none none ((k : Int) + 1) 2).map
            PaginatedResponse.incidents).getD [])).flatten
        = listFiltered seedState none none) :=
  paginationMeta seedState none none 1 2 (by decide)

end Soar
